import Mathlib

/-!
Verification of the perception-to-motion core of the `visualnav-transformer`
deployment node (`deployment/src/explore_apf.py`).

The development shallowly embeds the pieces of `ExplorationNode` that the
spec's testable properties are about:

* the context buffer (a `deque` with `maxlen = context_size + 1`);
* the depth projector's obstacle-set update
  (`_update_top_view_and_obstacles`), over exact rationals;
* the potential-field corrector (`compute_repulsive_force` and
  `apply_repulsive_forces_to_trajectories`), over the reals;
* the timer callback's context gate (`_timer_cb`).

Machine floats are modelled by exact arithmetic (`ℚ` where the code only
compares and selects, `ℝ` where it takes square roots and trigonometric
functions); `MAX_V / RATE` comes from an external config file and is kept as
an abstract `scale` parameter.
-/

namespace VNT

/-! ## Context buffer: `deque(maxlen = context_size + 1)` with `append` -/

/-- One `append` on a Python `deque` with `maxlen = c`: if the deque is not
yet full the frame goes to the right end; if it is full the oldest (leftmost)
frame is evicted first. -/
def dequePush {α : Type} (c : ℕ) (q : List α) (x : α) : List α :=
  if q.length < c then q ++ [x] else q.tail ++ [x]

/-- Pushing a whole arrival sequence into an initially empty context queue,
as `_image_cb` does one frame at a time. -/
def contextPushAll {α : Type} (c : ℕ) (xs : List α) : List α :=
  xs.foldl (dequePush c) []

/-- The last `c` elements of a list, in order. -/
def lastN {α : Type} (c : ℕ) (l : List α) : List α := l.drop (l.length - c)

theorem dequePush_length {α : Type} (c : ℕ) (hc : 0 < c) (q : List α) (x : α)
    (h : q.length ≤ c) : (dequePush c q x).length ≤ c := by
  unfold dequePush
  by_cases hlt : q.length < c
  · simp [hlt]
    omega
  · have hq : q.length = c := le_antisymm h (le_of_not_lt hlt)
    have hne : q ≠ [] := by
      intro he
      rw [he] at hq
      simp at hq
      omega
    simp [hlt, List.length_tail]
    omega

theorem dequePush_eq_lastN {α : Type} (c : ℕ) (hc : 0 < c) (q : List α) (x : α)
    (h : q.length ≤ c) : dequePush c q x = lastN c (q ++ [x]) := by
  unfold dequePush lastN
  by_cases hlt : q.length < c
  · have : q.length + 1 - c = 0 := by omega
    simp [hlt, this]
  · have hq : q.length = c := le_antisymm h (le_of_not_lt hlt)
    have h1 : (q ++ [x]).length - c = 1 := by simp [hq]
    rw [if_neg hlt, h1]
    cases q with
    | nil => simp at hq; omega
    | cons a as => simp

theorem lastN_length {α : Type} (c : ℕ) (l : List α) :
    (lastN c l).length = l.length - (l.length - c) := by
  simp [lastN]

/-- Keeping the last `c` elements absorbs across a later append. -/
theorem lastN_append_absorb {α : Type} (c : ℕ) (l xs : List α) :
    lastN c (lastN c l ++ xs) = lastN c (l ++ xs) := by
  unfold lastN
  by_cases h : l.length ≤ c
  · have : l.length - c = 0 := by omega
    simp [this]
  · have hlen : (l.drop (l.length - c)).length = c := by simp; omega
    have hlen2 : (l.drop (l.length - c) ++ xs).length = c + xs.length := by
      simp [hlen]
    rw [hlen2]
    have h3 : c + xs.length - c = xs.length := by omega
    rw [h3]
    have h4 : (l ++ xs).length - c = (l.length - c) + xs.length := by
      simp; omega
    rw [h4]
    rw [← List.drop_drop]
    congr 1
    rw [List.drop_append_of_le_length (by omega)]

theorem foldl_dequePush_eq_lastN {α : Type} (c : ℕ) (hc : 0 < c)
    (xs : List α) : ∀ (q : List α), q.length ≤ c →
    xs.foldl (dequePush c) q = lastN c (q ++ xs) := by
  induction xs with
  | nil =>
    intro q h
    have : q.length - c = 0 := by omega
    simp [lastN, this]
  | cons x xs ih =>
    intro q h
    rw [List.foldl_cons]
    rw [ih (dequePush c q x) (dequePush_length c hc q x h)]
    rw [dequePush_eq_lastN c hc q x h]
    rw [lastN_append_absorb]
    simp

/-- C4, part 1: the context queue never exceeds its capacity. -/
theorem contextPushAll_length_le {α : Type} (cs : ℕ) (xs : List α) :
    (contextPushAll (cs + 1) xs).length ≤ cs + 1 := by
  unfold contextPushAll
  rw [foldl_dequePush_eq_lastN (cs + 1) (Nat.succ_pos cs) xs [] (by simp)]
  simp [lastN]
  omega

/-- C4, part 2: with more pushes than capacity, contents are exactly the
last `c` pushes in arrival order. -/
theorem contextPushAll_overflow {α : Type} (cs : ℕ) (xs : List α)
    (h : cs + 1 < xs.length) :
    contextPushAll (cs + 1) xs = xs.drop (xs.length - (cs + 1)) ∧
    (contextPushAll (cs + 1) xs).length = cs + 1 := by
  unfold contextPushAll
  rw [foldl_dequePush_eq_lastN (cs + 1) (Nat.succ_pos cs) xs [] (by simp)]
  constructor
  · simp [lastN]
  · simp [lastN]
    omega

/-- C4: for a context window of capacity `c = context_size + 1`, the length
never exceeds `c` after any sequence of pushes, and after `n > c` pushes the
length is exactly `c` and the contents are the last `c` pushed frames in
arrival order (oldest first). -/
theorem context_window_ring_buffer {α : Type} (cs : ℕ) (xs : List α) :
    (contextPushAll (cs + 1) xs).length ≤ cs + 1 ∧
    (cs + 1 < xs.length →
      contextPushAll (cs + 1) xs = xs.drop (xs.length - (cs + 1)) ∧
      (contextPushAll (cs + 1) xs).length = cs + 1) := by
  refine ⟨contextPushAll_length_le cs xs, ?_⟩
  intro h
  exact contextPushAll_overflow cs xs h

/-- C4 witness: capacity 2 (`context_size = 1`), five pushes. -/
theorem context_window_ring_buffer_witness :
    (contextPushAll 2 [10, 20, 30, 40, 50]).length ≤ 2 ∧
    contextPushAll 2 [10, 20, 30, 40, 50] = [40, 50] ∧
    (2 : ℕ) < 5 :=
  ⟨(context_window_ring_buffer 1 [10, 20, 30, 40, 50]).1,
   by
     have h := (context_window_ring_buffer 1 [10, 20, 30, 40, 50]).2
       (by decide)
     exact h.1.trans (by decide),
   by decide⟩

/-! ## Depth projector: `_image_cb` validity mask and
`_update_top_view_and_obstacles`, over exact rationals.

`top_view_size = (400, 400)`, `top_view_resolution = 400 / proximity_threshold`,
`top_view_sampling_step = 5`. -/

/-- Per-robot projection parameters (set in `__init__`). -/
structure ProjParams where
  proximity_threshold : ℚ
  safety_margin : ℚ
  deriving DecidableEq

/-- `np.int32` applied to a nonnegative-or-negative real value truncates
toward zero. -/
def truncZ (q : ℚ) : ℤ := if 0 ≤ q then ⌊q⌋ else -⌊-q⌋

/-- `Z = np.maximum(Z_0 - self.safety_margin, 1e-3)`. -/
def shiftDepth (p : ProjParams) (z0 : ℚ) : ℚ :=
  max (z0 - p.safety_margin) (1 / 1000)

/-- `img_x = np.int32(top_view_size[0] // 2 + X * top_view_resolution)`. -/
def imgX (p : ProjParams) (x : ℚ) : ℤ :=
  truncZ (200 + x * (400 / p.proximity_threshold))

/-- `img_y = np.int32(top_view_size[1] - Z * top_view_resolution)` with `Z`
the safety-shifted depth. -/
def imgY (p : ProjParams) (z0 : ℚ) : ℤ :=
  truncZ (400 - shiftDepth p z0 * (400 / p.proximity_threshold))

/-- The in-bounds (`valid`) mask on a candidate `(X, Z_0)` point. -/
def validPt (p : ProjParams) (t : ℚ × ℚ) : Bool :=
  decide (0 ≤ imgX p t.1 ∧ imgX p t.1 < 400 ∧ 0 ≤ imgY p t.2 ∧ imgY p t.2 < 400)

/-- The candidates of lateral column `x`: valid points whose rasterized
`img_x` equals `x` (`np.where(img_x == x)`). -/
def columnCandidates (p : ProjParams) (pts : List (ℚ × ℚ)) (x : ℤ) :
    List (ℚ × ℚ) :=
  (pts.filter (validPt p)).filter (fun t => imgX p t.1 == x)

/-- One step of `np.argmin` over the shifted depth values: keep the earlier
point unless the new one is strictly nearer. -/
def chooseNearer (p : ProjParams) (best t : ℚ × ℚ) : ℚ × ℚ :=
  if shiftDepth p t.2 < shiftDepth p best.2 then t else best

/-- `col_idxs[np.argmin(depth_vals[col_idxs])]`: the first point of the
column attaining the minimum shifted depth, `none` when the column is empty. -/
def argminDepth (p : ProjParams) (l : List (ℚ × ℚ)) : Option (ℚ × ℚ) :=
  match l with
  | [] => none
  | x :: xs => some (xs.foldl (chooseNearer p) x)

/-- The `sampled_obstacles` loop: `for x in range(0, 400, 5)`, keeping the
nearest-depth candidate of each sampled column. -/
def sampleColumns (p : ProjParams) (pts : List (ℚ × ℚ)) : List (ℚ × ℚ) :=
  (List.range 80).filterMap
    (fun (k : ℕ) => argminDepth p (columnCandidates p pts (5 * (k : ℤ))))

/-- `_update_top_view_and_obstacles`: the new obstacle set, expressed in
robot-relative ground coordinates `(forward = Z, lateral = -X)`;
`none` when no point survives. -/
def updateObstacles (p : ProjParams) (pts : List (ℚ × ℚ)) :
    Option (List (ℚ × ℚ)) :=
  let s := sampleColumns p pts
  if s.isEmpty then none else some (s.map (fun t => (shiftDepth p t.2, -t.1)))

/-- The `_image_cb` validity mask on a depth-inferred point `(X, Y, Z)`:
`(Z > 0) & (Z <= proximity_threshold) & (Y >= -0.05)`. -/
def depthMask (p : ProjParams) (t : ℚ × ℚ × ℚ) : Bool :=
  decide (0 < t.2.2 ∧ t.2.2 ≤ p.proximity_threshold ∧ -(1 / 20) ≤ t.2.1)

/-- `_image_cb` obstacle pipeline: mask, then project the surviving
`(X, Z_0)` pairs. -/
def imageCbObstacleUpdate (p : ProjParams) (pts : List (ℚ × ℚ × ℚ)) :
    Option (List (ℚ × ℚ)) :=
  updateObstacles p ((pts.filter (depthMask p)).map (fun t => (t.1, t.2.2)))

theorem foldl_chooseNearer_mem (p : ProjParams) (xs : List (ℚ × ℚ)) :
    ∀ b : ℚ × ℚ, xs.foldl (chooseNearer p) b ∈ b :: xs := by
  induction xs with
  | nil => intro b; simp
  | cons x xs ih =>
    intro b
    rw [List.foldl_cons]
    rcases List.mem_cons.mp (ih (chooseNearer p b x)) with h1 | h1
    · rw [h1]
      unfold chooseNearer
      by_cases hc : shiftDepth p x.2 < shiftDepth p b.2
      · rw [if_pos hc]
        exact List.mem_cons.mpr (Or.inr (List.mem_cons_self _ _))
      · rw [if_neg hc]
        exact List.mem_cons_self _ _
    · exact List.mem_cons.mpr (Or.inr (List.mem_cons.mpr (Or.inr h1)))

theorem foldl_chooseNearer_min (p : ProjParams) (xs : List (ℚ × ℚ)) :
    ∀ b : ℚ × ℚ, ∀ q ∈ b :: xs,
      shiftDepth p (xs.foldl (chooseNearer p) b).2 ≤ shiftDepth p q.2 := by
  induction xs with
  | nil =>
    intro b q hq
    simp at hq
    simp [hq]
  | cons x xs ih =>
    intro b q hq
    rw [List.foldl_cons]
    have hstep : shiftDepth p (chooseNearer p b x).2 ≤ shiftDepth p b.2 ∧
        shiftDepth p (chooseNearer p b x).2 ≤ shiftDepth p x.2 := by
      unfold chooseNearer
      by_cases hc : shiftDepth p x.2 < shiftDepth p b.2
      · rw [if_pos hc]; exact ⟨le_of_lt hc, le_refl _⟩
      · rw [if_neg hc]; exact ⟨le_refl _, le_of_not_lt hc⟩
    have hself := ih (chooseNearer p b x) (chooseNearer p b x)
      (List.mem_cons_self _ _)
    rcases List.mem_cons.mp hq with h1 | h1
    · rw [h1]
      exact le_trans hself hstep.1
    · rcases List.mem_cons.mp h1 with h2 | h2
      · rw [h2]
        exact le_trans hself hstep.2
      · exact ih (chooseNearer p b x) q (List.mem_cons.mpr (Or.inr h2))

theorem argminDepth_spec (p : ProjParams) (l : List (ℚ × ℚ)) (e : ℚ × ℚ)
    (h : argminDepth p l = some e) :
    e ∈ l ∧ ∀ q ∈ l, shiftDepth p e.2 ≤ shiftDepth p q.2 := by
  cases l with
  | nil => simp [argminDepth] at h
  | cons x xs =>
    simp only [argminDepth, Option.some.injEq] at h
    subst h
    exact ⟨foldl_chooseNearer_mem p xs x, foldl_chooseNearer_min p xs x⟩

theorem countP_filterMap_le {β : Type} (f : ℕ → Option β) (pr : β → Bool)
    (g : ℕ → Bool)
    (h : ∀ k b, f k = some b → pr b = true → g k = true) :
    ∀ ks : List ℕ, ((ks.filterMap f).countP pr) ≤ ks.countP g := by
  intro ks
  induction ks with
  | nil => simp
  | cons k ks ih =>
    rw [List.countP_cons]
    cases hf : f k with
    | none =>
      rw [List.filterMap_cons, hf]
      exact le_trans ih (Nat.le_add_right _ _)
    | some b =>
      rw [List.filterMap_cons, hf, List.countP_cons]
      by_cases hb : pr b = true
      · rw [if_pos hb, if_pos (h k b hf hb)]
        omega
      · rw [if_neg hb]
        by_cases hg : g k = true
        · rw [if_pos hg]; omega
        · rw [if_neg hg]; omega

theorem mem_columnCandidates_imgX (p : ProjParams) (pts : List (ℚ × ℚ))
    (x : ℤ) (e : ℚ × ℚ) (h : e ∈ columnCandidates p pts x) :
    imgX p e.1 = x := by
  unfold columnCandidates at h
  have := (List.mem_filter.mp h).2
  exact beq_iff_eq.mp this

/-- C5: for every input point set and every sampled lateral column, at most
one obstacle point is emitted for that column, and an emitted point has the
minimum (shifted) depth among all candidate points rasterizing into that
column. -/
theorem depth_projector_one_nearest_per_column (p : ProjParams)
    (pts : List (ℚ × ℚ)) (k : ℕ) :
    ((sampleColumns p pts).countP (fun e => imgX p e.1 == 5 * (k : ℤ))) ≤ 1 ∧
    (∀ e ∈ sampleColumns p pts, imgX p e.1 = 5 * (k : ℤ) →
      e ∈ columnCandidates p pts (5 * (k : ℤ)) ∧
      ∀ q ∈ columnCandidates p pts (5 * (k : ℤ)),
        shiftDepth p e.2 ≤ shiftDepth p q.2) := by
  constructor
  · have hle := countP_filterMap_le
      (fun j => argminDepth p (columnCandidates p pts (5 * (j : ℤ))))
      (fun e => imgX p e.1 == 5 * (k : ℤ))
      (fun j => j == k)
      (by
        intro j b hfb hpr
        have hmem := (argminDepth_spec p _ b hfb).1
        have hx := mem_columnCandidates_imgX p pts _ b hmem
        have hk : imgX p b.1 = 5 * (k : ℤ) := beq_iff_eq.mp hpr
        have : (j : ℤ) = (k : ℤ) := by omega
        have : j = k := by exact_mod_cast this
        simp [this])
      (List.range 80)
    refine le_trans hle ?_
    have hcount : (List.range 80).countP (fun j => j == k) =
        (List.range 80).count k := rfl
    rw [hcount]
    exact List.nodup_iff_count_le_one.mp (List.nodup_range 80) k
  · intro e he hx
    unfold sampleColumns at he
    rcases List.mem_filterMap.mp he with ⟨j, hj, hsome⟩
    have hspec := argminDepth_spec p _ e hsome
    have hx2 := mem_columnCandidates_imgX p pts _ e hspec.1
    have hjk : (j : ℤ) = (k : ℤ) := by omega
    have hjk2 : j = k := by exact_mod_cast hjk
    subst hjk2
    exact hspec

/-- C5 witness: threshold 1 m, no margin; two points in the same lateral
column (`img_x = 200 = 5·40`) at shifted depths `1/2 < 7/10`; the emitted
point is the nearer one. -/
theorem depth_projector_one_nearest_per_column_witness :
    ((sampleColumns ⟨1, 0⟩ [(0, 1/2), (0, 7/10)]).countP
      (fun e => imgX ⟨1, 0⟩ e.1 == 5 * ((40 : ℕ) : ℤ))) ≤ 1 ∧
    (0, 1/2) ∈ sampleColumns ⟨1, 0⟩ [(0, 1/2), (0, 7/10)] ∧
    imgX ⟨1, 0⟩ ((0 : ℚ), (1/2 : ℚ)).1 = 5 * ((40 : ℕ) : ℤ) ∧
    (0, 7/10) ∈ columnCandidates ⟨1, 0⟩ [(0, 1/2), (0, 7/10)]
      (5 * ((40 : ℕ) : ℤ)) ∧
    shiftDepth ⟨1, 0⟩ ((0 : ℚ), (1/2 : ℚ)).2 ≤
      shiftDepth ⟨1, 0⟩ ((0 : ℚ), (7/10 : ℚ)).2 := by
  have h5 : (5 * ((40 : ℕ) : ℤ)) = 200 := by norm_num
  have himg : imgX ⟨1, 0⟩ (0 : ℚ) = 200 := by
    unfold imgX truncZ
    norm_num
  have hs1 : shiftDepth ⟨1, 0⟩ (1/2 : ℚ) = 1/2 := by
    unfold shiftDepth
    norm_num
  have hs2 : shiftDepth ⟨1, 0⟩ (7/10 : ℚ) = 7/10 := by
    unfold shiftDepth
    norm_num
  have hy1 : imgY ⟨1, 0⟩ (1/2 : ℚ) = 200 := by
    unfold imgY truncZ
    rw [hs1]
    norm_num
  have hy2 : imgY ⟨1, 0⟩ (7/10 : ℚ) = 120 := by
    unfold imgY truncZ
    rw [hs2]
    norm_num
  have hv1 : validPt ⟨1, 0⟩ ((0 : ℚ), (1/2 : ℚ)) = true := by
    unfold validPt
    rw [show (((0 : ℚ), (1/2 : ℚ)).1) = (0 : ℚ) from rfl,
      show (((0 : ℚ), (1/2 : ℚ)).2) = (1/2 : ℚ) from rfl, himg, hy1]
    decide
  have hv2 : validPt ⟨1, 0⟩ ((0 : ℚ), (7/10 : ℚ)) = true := by
    unfold validPt
    rw [show (((0 : ℚ), (7/10 : ℚ)).1) = (0 : ℚ) from rfl,
      show (((0 : ℚ), (7/10 : ℚ)).2) = (7/10 : ℚ) from rfl, himg, hy2]
    decide
  have hcand : columnCandidates ⟨1, 0⟩ [(0, 1/2), (0, 7/10)]
      (5 * ((40 : ℕ) : ℤ)) = [(0, 1/2), (0, 7/10)] := by
    unfold columnCandidates
    rw [h5]
    rw [List.filter_cons, List.filter_cons, List.filter_nil]
    rw [hv1, hv2]
    simp only [if_true]
    rw [List.filter_cons, List.filter_cons, List.filter_nil]
    simp [himg]
  have hf40 : argminDepth ⟨1, 0⟩ (columnCandidates ⟨1, 0⟩
      [(0, 1/2), (0, 7/10)] (5 * ((40 : ℕ) : ℤ))) = some (0, 1/2) := by
    rw [hcand]
    have hlt : ¬ (shiftDepth ⟨1, 0⟩ (((0 : ℚ), (7/10 : ℚ)).2) <
        shiftDepth ⟨1, 0⟩ (((0 : ℚ), (1/2 : ℚ)).2)) := by
      rw [show (((0 : ℚ), (7/10 : ℚ)).2) = (7/10 : ℚ) from rfl,
        show (((0 : ℚ), (1/2 : ℚ)).2) = (1/2 : ℚ) from rfl, hs1, hs2]
      norm_num
    show some (List.foldl (chooseNearer ⟨1, 0⟩) (0, 1/2) [(0, 7/10)]) =
      some (0, 1/2)
    rw [List.foldl_cons, List.foldl_nil]
    unfold chooseNearer
    rw [if_neg hlt]
  have hmem : ((0 : ℚ), (1/2 : ℚ)) ∈
      sampleColumns ⟨1, 0⟩ [(0, 1/2), (0, 7/10)] := by
    unfold sampleColumns
    have h40 : (40 : ℕ) ∈ List.range 80 := List.mem_range.mpr (by norm_num)
    refine List.mem_filterMap.mpr ⟨40, ?_, ?_⟩
    · exact h40
    · exact hf40
  have hx : imgX ⟨1, 0⟩ ((0 : ℚ), (1/2 : ℚ)).1 = 5 * ((40 : ℕ) : ℤ) := by
    rw [h5]
    exact himg
  have hq : ((0 : ℚ), (7/10 : ℚ)) ∈
      columnCandidates ⟨1, 0⟩ [(0, 1/2), (0, 7/10)] (5 * ((40 : ℕ) : ℤ)) := by
    rw [hcand]
    simp
  have h := depth_projector_one_nearest_per_column ⟨1, 0⟩
    [(0, 1/2), (0, 7/10)] 40
  exact ⟨h.1, hmem, hx, hq, (h.2 _ hmem hx).2 _ hq⟩

/-- C7: a depth-inferred `(X, Y, Z)` point passes the `_image_cb` validity
filter iff `0 < Z ≤ proximity_threshold` and `Y ≥ -0.05`, and every
surviving point's depth is shifted to `max (Z - safety_margin) (1e-3)` with
`1e-3` a positive floor before rasterization. -/
theorem depth_filter_iff_and_margin_shift (p : ProjParams)
    (pts : List (ℚ × ℚ × ℚ)) (t : ℚ × ℚ × ℚ) (z0 : ℚ) :
    (t ∈ pts.filter (depthMask p) ↔
      t ∈ pts ∧ (0 < t.2.2 ∧ t.2.2 ≤ p.proximity_threshold ∧
        -(1 / 20) ≤ t.2.1)) ∧
    shiftDepth p z0 = max (z0 - p.safety_margin) (1 / 1000) ∧
    (0 : ℚ) < 1 / 1000 ∧ 1 / 1000 ≤ shiftDepth p z0 := by
  refine ⟨?_, rfl, by norm_num, le_max_right _ _⟩
  rw [List.mem_filter]
  unfold depthMask
  rw [decide_eq_true_iff]

/-- C7 witness: threshold 1 m, no margin; the point `(0, 0, 1/2)` passes the
mask and its depth is floored at `max (1/2 - 0) (1/1000)`. -/
theorem depth_filter_iff_and_margin_shift_witness :
    ((0 : ℚ), (0 : ℚ), (1/2 : ℚ)) ∈
      ([((0 : ℚ), (0 : ℚ), (1/2 : ℚ))].filter (depthMask ⟨1, 0⟩)) ∧
    shiftDepth ⟨1, 0⟩ (1/2 : ℚ) =
      max ((1/2 : ℚ) - (⟨1, 0⟩ : ProjParams).safety_margin) (1 / 1000) :=
  ⟨(depth_filter_iff_and_margin_shift ⟨1, 0⟩ [((0 : ℚ), (0 : ℚ), (1/2 : ℚ))]
      ((0 : ℚ), (0 : ℚ), (1/2 : ℚ)) (1/2)).1.mpr
    ⟨List.mem_singleton.mpr rfl, by norm_num, by norm_num, by norm_num⟩,
   (depth_filter_iff_and_margin_shift ⟨1, 0⟩ [((0 : ℚ), (0 : ℚ), (1/2 : ℚ))]
      ((0 : ℚ), (0 : ℚ), (1/2 : ℚ)) (1/2)).2.1⟩

/-! ## Potential-field corrector (`compute_repulsive_force`,
`apply_repulsive_forces_to_trajectories`), over ℝ.

`MAX_V / RATE` is the abstract `scale` parameter; the Python default
`influence_range = 1.0` is passed explicitly at the call site. -/

noncomputable section

/-- `np.linalg.norm` of a 2-D vector. -/
def norm2 (v : ℝ × ℝ) : ℝ := Real.sqrt (v.1 ^ 2 + v.2 ^ 2)

/-- The contribution of one obstacle inside the `compute_repulsive_force`
loop: skipped (`continue`) when `dist < 1e-6 or dist > influence_range`,
otherwise `(1.0 / dist**3) * (vec / dist)`. -/
def repContribution (point obs : ℝ × ℝ) (influence_range : ℝ) : ℝ × ℝ :=
  let vec : ℝ × ℝ := (point.1 - obs.1, point.2 - obs.2)
  let dist := norm2 vec
  if dist < 1e-6 ∨ dist > influence_range then (0, 0)
  else ((1 / dist ^ 3) * (vec.1 / dist), (1 / dist ^ 3) * (vec.2 / dist))

/-- `compute_repulsive_force(point, obstacles, influence_range)`: zero when
`obstacles is None`, otherwise the sum of the per-obstacle contributions. -/
def compute_repulsive_force (point : ℝ × ℝ)
    (obstacles : Option (List (ℝ × ℝ))) (influence_range : ℝ) : ℝ × ℝ :=
  match obstacles with
  | none => (0, 0)
  | some obs =>
    obs.foldl (fun acc o =>
      let c := repContribution point o influence_range
      (acc.1 + c.1, acc.2 + c.2)) (0, 0)

/-- The point at which `apply_repulsive_forces_to_trajectories` evaluates
the repulsive force for step `j`:
`pt = updated_trajs[i, j] * (MAX_V / RATE)`. -/
def apfEvalPoint (scale : ℝ) (traj : List (ℝ × ℝ)) (j : ℕ) : ℝ × ℝ :=
  ((traj.getD j (0, 0)).1 * scale, (traj.getD j (0, 0)).2 * scale)

/-- The evaluation point as §4.4 of the spec words it: the accumulated
(cumulative-sum) displacement of steps `0..j`, scaled by `MAX_V / RATE`. -/
def apfEvalPointSpec (scale : ℝ) (traj : List (ℝ × ℝ)) (j : ℕ) : ℝ × ℝ :=
  (((traj.take (j + 1)).map Prod.fst).sum * scale,
   ((traj.take (j + 1)).map Prod.snd).sum * scale)

/-- The inner `for j` loop of the corrector: the repulsive force of the
single step with the largest force magnitude (`max_force`), starting from
`max_force = 0, max_magnitude = 0.0`. -/
def trajMaxForce (scale : ℝ) (obstacles : List (ℝ × ℝ))
    (traj : List (ℝ × ℝ)) : ℝ × ℝ :=
  ((List.range traj.length).foldl (fun (acc : (ℝ × ℝ) × ℝ) j =>
      let rep := compute_repulsive_force (apfEvalPoint scale traj j)
        (some obstacles) 1
      let mag := norm2 rep
      if mag > acc.2 then (rep, mag) else acc) ((0, 0), 0)).1

/-- `np.arctan2 y x`. -/
def atan2 (y x : ℝ) : ℝ :=
  if 0 < x then Real.arctan (y / x)
  else if x < 0 then
    (if 0 ≤ y then Real.arctan (y / x) + Real.pi
     else Real.arctan (y / x) - Real.pi)
  else if 0 < y then Real.pi / 2
  else if y < 0 then -(Real.pi / 2)
  else 0

/-- `np.clip a lo hi`. -/
def clip (a lo hi : ℝ) : ℝ := min (max a lo) hi

/-- The bounded heading correction computed from the worst force vector:
`angle = np.clip(np.arctan2(max_force[1], max_force[0]), -π/4, π/4)`. -/
def headingAngle (F : ℝ × ℝ) : ℝ :=
  clip (atan2 F.2 F.1) (-(Real.pi / 4)) (Real.pi / 4)

/-- Application of the 2-D `rotation_matrix` of angle `θ` to one step. -/
def rot (θ : ℝ) (s : ℝ × ℝ) : ℝ × ℝ :=
  (Real.cos θ * s.1 - Real.sin θ * s.2,
   Real.sin θ * s.1 + Real.cos θ * s.2)

/-- One iteration of the per-trajectory loop: worst-step force, clamped
heading angle, rigid rotation of every step of the trajectory. -/
def correctTraj (scale : ℝ) (obstacles : List (ℝ × ℝ))
    (traj : List (ℝ × ℝ)) : List (ℝ × ℝ) :=
  traj.map (rot (headingAngle (trajMaxForce scale obstacles traj)))

/-- `apply_repulsive_forces_to_trajectories(trajectories)`: pass-through
when the obstacle set is `None` or empty, otherwise the per-trajectory
correction of every row of the copy. -/
def apply_repulsive_forces_to_trajectories (scale : ℝ)
    (obstacles : Option (List (ℝ × ℝ)))
    (trajectories : List (List (ℝ × ℝ))) : List (List (ℝ × ℝ)) :=
  match obstacles with
  | none => trajectories
  | some obs =>
    if obs.length = 0 then trajectories
    else trajectories.map (correctTraj scale obs)

/-- Imperative view of `apply_repulsive_forces_to_trajectories`, keeping the
caller's array explicit: the first component is the caller's array after the
call, the second the returned value. In the source, `updated_trajs =
trajectories.copy()` allocates a fresh array with equal contents and each
assignment `updated_trajs[i] = ...` writes row `i` of that copy only. -/
def apply_repulsive_forces_exec (scale : ℝ)
    (obstacles : Option (List (ℝ × ℝ)))
    (trajectories : List (List (ℝ × ℝ))) :
    List (List (ℝ × ℝ)) × List (List (ℝ × ℝ)) :=
  match obstacles with
  | none => (trajectories, trajectories)
  | some obs =>
    if obs.length = 0 then (trajectories, trajectories)
    else
      (trajectories,
        (List.range trajectories.length).foldl
          (fun w i => w.set i (correctTraj scale obs (w.getD i [])))
          trajectories)

end

/-- Writing `f w[i]` into slot `i` for each index in ascending order, with a
processed prefix `pre`, maps `f` over the unprocessed suffix. -/
theorem foldl_set_range_map {α : Type} (f : α → α) (d : α) :
    ∀ (suf pre : List α),
      (List.range' pre.length suf.length).foldl
        (fun w i => w.set i (f (w.getD i d))) (pre ++ suf) =
      pre ++ suf.map f := by
  intro suf
  induction suf with
  | nil => intro pre; simp
  | cons s rest ih =>
    intro pre
    rw [List.length_cons, List.range'_succ, List.foldl_cons]
    have hget : (pre ++ s :: rest).getD pre.length d = s := by
      rw [List.getD_eq_getElem?_getD, List.getElem?_append_right (le_refl _)]
      simp
    have hset : (pre ++ s :: rest).set pre.length (f s) =
        (pre ++ [f s]) ++ rest := by
      rw [List.set_append_right _ _ (le_refl _)]
      simp
    rw [hget, hset]
    have hlen : pre.length + 1 = (pre ++ [f s]).length := by simp
    rw [hlen, ih (pre ++ [f s])]
    simp

/-- C6: with an empty obstacle set (`None` or zero obstacle points) the
corrector returns the input batch with exactly equal values and raises
nothing. -/
theorem corrector_empty_obstacles_passthrough (scale : ℝ)
    (trajectories : List (List (ℝ × ℝ))) :
    apply_repulsive_forces_to_trajectories scale none trajectories =
      trajectories ∧
    apply_repulsive_forces_to_trajectories scale (some []) trajectories =
      trajectories := by
  constructor
  · rfl
  · simp [apply_repulsive_forces_to_trajectories]

/-- C10: the caller's batch is unchanged by
`apply_repulsive_forces_to_trajectories` (when obstacles are present the
loop writes only the copy), and the value the caller receives is exactly
the functional result. -/
theorem corrector_input_not_mutated (scale : ℝ)
    (obstacles : Option (List (ℝ × ℝ)))
    (trajectories : List (List (ℝ × ℝ))) :
    (apply_repulsive_forces_exec scale obstacles trajectories).1 =
      trajectories ∧
    (apply_repulsive_forces_exec scale obstacles trajectories).2 =
      apply_repulsive_forces_to_trajectories scale obstacles trajectories := by
  cases obstacles with
  | none => exact ⟨rfl, rfl⟩
  | some obs =>
    by_cases h : obs.length = 0
    · constructor
      · simp [apply_repulsive_forces_exec, h]
      · simp [apply_repulsive_forces_exec,
          apply_repulsive_forces_to_trajectories, h]
    · constructor
      · simp [apply_repulsive_forces_exec, h]
      · simp only [apply_repulsive_forces_exec,
          apply_repulsive_forces_to_trajectories, if_neg h]
        have := foldl_set_range_map
          (correctTraj scale obs) ([] : List (ℝ × ℝ)) trajectories []
        simpa [List.range_eq_range'] using this

theorem compute_repulsive_force_singleton (point obs : ℝ × ℝ) (r : ℝ) :
    compute_repulsive_force point (some [obs]) r =
      repContribution point obs r := by
  show ((((0 : ℝ), (0 : ℝ)).1 + (repContribution point obs r).1,
      ((0 : ℝ), (0 : ℝ)).2 + (repContribution point obs r).2) : ℝ × ℝ) =
    repContribution point obs r
  simp

/-- C1 counterexample: with `influence_range = 1` and an obstacle at
distance exactly `1` from the query point, the repulsive force is `(-1, 0)`,
not zero — the boundary is inclusive in the code, not exclusive. -/
theorem repulsive_force_boundary_counterexample :
    compute_repulsive_force (0, 0) (some [(1, 0)]) 1 ≠ (0, 0) := by
  rw [compute_repulsive_force_singleton]
  unfold repContribution norm2
  norm_num

/-- C1 (amended): an obstacle contributes `(1/d³)·(vec/d)` iff its distance
`d = |point - obs|` satisfies `1e-6 ≤ d` and `d ≤ influence_range` — the
upper boundary is inclusive; an obstacle strictly beyond `influence_range`,
or below the `1e-6` singularity threshold, contributes zero. -/
theorem repulsive_force_contribution_iff (point obs : ℝ × ℝ) (r : ℝ) :
    compute_repulsive_force point (some [obs]) r =
      if 1e-6 ≤ norm2 (point.1 - obs.1, point.2 - obs.2) ∧
          norm2 (point.1 - obs.1, point.2 - obs.2) ≤ r then
        ((1 / norm2 (point.1 - obs.1, point.2 - obs.2) ^ 3) *
          ((point.1 - obs.1) / norm2 (point.1 - obs.1, point.2 - obs.2)),
         (1 / norm2 (point.1 - obs.1, point.2 - obs.2) ^ 3) *
          ((point.2 - obs.2) / norm2 (point.1 - obs.1, point.2 - obs.2)))
      else (0, 0) := by
  rw [compute_repulsive_force_singleton]
  unfold repContribution
  have hiff : (norm2 (point.1 - obs.1, point.2 - obs.2) < 1e-6 ∨
      norm2 (point.1 - obs.1, point.2 - obs.2) > r) ↔
      ¬(1e-6 ≤ norm2 (point.1 - obs.1, point.2 - obs.2) ∧
        norm2 (point.1 - obs.1, point.2 - obs.2) ≤ r) := by
    rw [not_and_or, not_le, not_le]
  by_cases h : 1e-6 ≤ norm2 (point.1 - obs.1, point.2 - obs.2) ∧
      norm2 (point.1 - obs.1, point.2 - obs.2) ≤ r
  · rw [if_neg (fun hor => (hiff.mp hor) h), if_pos h]
  · rw [if_pos (hiff.mpr h), if_neg h]

/-- C2 counterexample: for the two-step trajectory `[(1,0),(1,0)]` at unit
scale, the code's step-1 evaluation point is the raw step `(1, 0)`, while
the spec's accumulated position is `(2, 0)`. -/
theorem corrector_eval_point_counterexample :
    apfEvalPoint 1 [(1, 0), (1, 0)] 1 ≠
      apfEvalPointSpec 1 [(1, 0), (1, 0)] 1 := by
  unfold apfEvalPoint apfEvalPointSpec
  norm_num [List.getD]

/-- C2 (amended): the point at which the corrector evaluates the repulsive
force for step `j` is the single step-`j` displacement scaled by
`MAX_V / RATE` — not the accumulated displacement of steps `0..j`; the two
coincide only at the first step. -/
theorem corrector_eval_point_is_single_step (scale : ℝ)
    (traj : List (ℝ × ℝ)) (j : ℕ) :
    apfEvalPoint scale traj j =
      ((traj.getD j (0, 0)).1 * scale, (traj.getD j (0, 0)).2 * scale) ∧
    apfEvalPointSpec scale traj 0 = apfEvalPoint scale traj 0 := by
  refine ⟨rfl, ?_⟩
  unfold apfEvalPoint apfEvalPointSpec
  cases traj with
  | nil => simp
  | cons a l => simp [List.getD]

/-- C3: the heading correction angle lies in `[-π/4, π/4]` for every force
vector; the zero force vector gives zero correction; and the corrected
trajectory is one rigid 2-D rotation by that single angle applied uniformly
to every step. -/
theorem heading_correction_bounded_and_rigid :
    (∀ F : ℝ × ℝ, -(Real.pi / 4) ≤ headingAngle F ∧
      headingAngle F ≤ Real.pi / 4) ∧
    headingAngle (0, 0) = 0 ∧
    (∀ (scale : ℝ) (obstacles : List (ℝ × ℝ)) (traj : List (ℝ × ℝ)),
      correctTraj scale obstacles traj =
        traj.map (rot (headingAngle (trajMaxForce scale obstacles traj)))) := by
  have hq : (0 : ℝ) ≤ Real.pi / 4 := by positivity
  refine ⟨?_, ?_, fun scale obstacles traj => rfl⟩
  · intro F
    unfold headingAngle clip
    constructor
    · exact le_min (le_max_right _ _) (by linarith)
    · exact min_le_right _ _
  · unfold headingAngle atan2 clip
    norm_num
    rw [max_eq_left (neg_nonpos.mpr hq), min_eq_left hq]

/-- C9: rotating a trajectory by angle `0` leaves every step unchanged, and
rotating by `θ` then `-θ` restores the original trajectory exactly. -/
theorem rotation_identity_roundtrip (θ : ℝ) (traj : List (ℝ × ℝ)) :
    traj.map (rot 0) = traj ∧
    (traj.map (rot θ)).map (rot (-θ)) = traj := by
  constructor
  · have h : ∀ s : ℝ × ℝ, rot 0 s = s := by
      intro s
      unfold rot
      simp
    rw [show rot (0 : ℝ) = (id : ℝ × ℝ → ℝ × ℝ) from funext h, List.map_id]
  · rw [List.map_map]
    have h : ∀ s : ℝ × ℝ, rot (-θ) (rot θ s) = s := by
      intro s
      unfold rot
      simp only [Real.cos_neg, Real.sin_neg]
      refine Prod.ext ?_ ?_
      · dsimp only
        linear_combination s.1 * Real.sin_sq_add_cos_sq θ
      · dsimp only
        linear_combination s.2 * Real.sin_sq_add_cos_sq θ
    rw [show (rot (-θ) ∘ rot θ) = (id : ℝ × ℝ → ℝ × ℝ) from funext h,
      List.map_id]

/-! ## Timer callback context gate (`_timer_cb`) -/

/-- An outbound message of the timer callback. -/
inductive PubMsg : Type
  | sampledActions (data : List ℝ)
  | waypoint (x y : ℝ)
  | vizImage (apf_applied : Bool)

noncomputable section

/-- The flattened sampled-actions payload:
`[0.0] + [float(x) for x in traj_batch.flatten()]`, row-major. -/
def flattenBatch (batch : List (List (ℝ × ℝ))) : List ℝ :=
  0 :: (batch.map (fun row => (row.map (fun s => [s.1, s.2])).flatten)).flatten

/-- `_timer_cb`, with the vision-encoder conditioning and the denoising loop
abstracted into the opaque sampled batch `naction` (the gate is checked
before any of that runs): the messages published by one tick. -/
def timer_cb (context_size ctx_len : ℕ) (scale : ℝ)
    (obstacle_points : Option (List (ℝ × ℝ)))
    (naction : List (List (ℝ × ℝ))) (waypoint_index : ℕ) : List PubMsg :=
  if ctx_len ≤ context_size then []
  else
    let is_apf_applied : Bool :=
      match obstacle_points with
      | none => false
      | some l => decide (0 < l.length)
    let traj_batch := apply_repulsive_forces_to_trajectories scale
      obstacle_points naction
    let chosen := (traj_batch.getD 0 []).getD waypoint_index (0, 0)
    [PubMsg.sampledActions (flattenBatch traj_batch),
     PubMsg.waypoint chosen.1 chosen.2,
     PubMsg.vizImage is_apf_applied]

end

/-- C8: when the context buffer holds at most `context_size` frames the
timer tick returns early and publishes nothing — no waypoint, no
sampled-actions batch, no visualization image — and this is a silent skip,
not an error. -/
theorem timer_tick_noop_without_context (context_size ctx_len : ℕ)
    (scale : ℝ) (obstacle_points : Option (List (ℝ × ℝ)))
    (naction : List (List (ℝ × ℝ))) (waypoint_index : ℕ)
    (h : ctx_len ≤ context_size) :
    timer_cb context_size ctx_len scale obstacle_points naction
      waypoint_index = [] := by
  unfold timer_cb
  rw [if_pos h]

/-- C8 witness: `context_size = 2`, a single buffered frame. -/
theorem timer_tick_noop_without_context_witness :
    (1 : ℕ) ≤ 2 ∧ timer_cb 2 1 0 none [] 0 = [] :=
  ⟨by decide, timer_tick_noop_without_context 2 1 0 none [] 0 (by decide)⟩

end VNT
